import Mathlib

/-!
Verification of the simulation orchestration core of the repository,
shallowly embedded from `src/Simulations/monte_carlo_simulation.py` and
`src/Simulations/random_simulation.py`.

Machine floats are modelled as exact rationals (or reals) where only finite
values arise, and by the extended type `RFloat` (finite real, the two
infinities, NaN) where the code can produce IEEE special values.  Python
exceptions are modelled with `Except PyErr`.  Random draws are abstracted as
streams of values (`ℕ → ℤ` or `ℕ → ℚ`), since every claim under
verification is about the orchestration around the draws, not their
distribution.
-/

/-- Exceptions that the embedded Python code can raise. -/
inductive PyErr where
  | zeroDivisionError : PyErr
  | nameError : String → PyErr
  | valueError : String → PyErr
deriving DecidableEq, Repr

/-- Python floor division `a // b`: raises `ZeroDivisionError` on `b = 0`,
otherwise floor division (`Int.fdiv` rounds toward negative infinity exactly
as Python does). -/
def pyFloorDiv (a b : ℤ) : Except PyErr ℤ :=
  if b = 0 then .error .zeroDivisionError else .ok (a.fdiv b)

/-- The Python idiom `bs or (a // p)` used at
`monte_carlo_simulation.py` line 86 and `random_simulation.py` line 58:
if `bs` is `None` or `0` (falsy) the fallback floor division is evaluated,
otherwise `bs` itself is returned. -/
def pyOrDiv (bs : Option ℤ) (a p : ℤ) : Except PyErr ℤ :=
  match bs with
  | some b => if b ≠ 0 then .ok b else pyFloorDiv a p
  | none => pyFloorDiv a p

/-- `np.mean` of a list of numbers with exact arithmetic: sum divided by
length (the orchestration code never applies it to an empty buffer). -/
def np_mean {α : Type} [LinearOrderedField α] (l : List α) : α :=
  l.sum / l.length

/-- `np.min` of a buffer: left fold of `min` over the elements (numpy raises
on an empty array; the `[]` case below is a sentinel never relied upon). -/
def np_min {α : Type} [LinearOrderedField α] : List α → α
  | [] => 0
  | x :: xs => xs.foldl min x

/-- `np.max` of a buffer, analogous to `np_min`. -/
def np_max {α : Type} [LinearOrderedField α] : List α → α
  | [] => 0
  | x :: xs => xs.foldl max x

/-- IEEE-style double values as produced by numpy scalar arithmetic: finite
reals, the two infinities, and NaN.  Signed zero is not modelled (a zero is
treated as +0), which is faithful for every computation appearing in this
repository. -/
inductive RFloat where
  | fin : ℝ → RFloat
  | inf : RFloat
  | negInf : RFloat
  | nan : RFloat

namespace RFloat

/-- IEEE negation. -/
def neg : RFloat → RFloat
  | fin a => fin (-a)
  | inf => negInf
  | negInf => inf
  | nan => nan

/-- IEEE addition: NaN propagates, opposite infinities give NaN. -/
noncomputable def add : RFloat → RFloat → RFloat
  | nan, _ => nan
  | _, nan => nan
  | inf, negInf => nan
  | negInf, inf => nan
  | inf, _ => inf
  | _, inf => inf
  | negInf, _ => negInf
  | _, negInf => negInf
  | fin a, fin b => fin (a + b)

/-- IEEE subtraction `x + (-y)`. -/
noncomputable def sub (x y : RFloat) : RFloat := add x (neg y)

/-- IEEE absolute value (named `fabs` so that the `|x|` notation for real
absolute values stays unambiguous). -/
noncomputable def fabs : RFloat → RFloat
  | fin a => fin |a|
  | inf => inf
  | negInf => inf
  | nan => nan

/-- IEEE/numpy division: finite by zero gives NaN for `0/0` and a signed
infinity otherwise (numpy warns but does not raise); NaN propagates;
infinity by infinity is NaN. -/
noncomputable def div : RFloat → RFloat → RFloat
  | nan, _ => nan
  | _, nan => nan
  | fin a, fin b =>
      if b = 0 then
        if a = 0 then nan else if 0 < a then inf else negInf
      else fin (a / b)
  | fin _, inf => fin 0
  | fin _, negInf => fin 0
  | inf, fin b => if 0 ≤ b then inf else negInf
  | negInf, fin b => if 0 ≤ b then negInf else inf
  | inf, inf => nan
  | inf, negInf => nan
  | negInf, inf => nan
  | negInf, negInf => nan

/-- IEEE natural power, with the convention `x ** 0 = 1.0` for every `x`
(numpy's behaviour, NaN included). -/
noncomputable def npow : RFloat → ℕ → RFloat
  | fin a, k => fin (a ^ k)
  | inf, k => if k = 0 then fin 1 else inf
  | negInf, k => if k = 0 then fin 1 else if k % 2 = 0 then inf else negInf
  | nan, k => if k = 0 then fin 1 else nan

/-- `np.sum` over float values: left fold of IEEE addition from `0.0`. -/
noncomputable def sum (l : List RFloat) : RFloat := l.foldl add (fin 0)

/-- `np.mean` over float values: IEEE sum divided by the length. -/
noncomputable def mean (l : List RFloat) : RFloat := div (sum l) (fin l.length)

end RFloat

/-- `np.std(data)`: population standard deviation, the square root of the
mean squared deviation from the mean. -/
noncomputable def np_std (data : List ℝ) : ℝ :=
  Real.sqrt (np_mean (data.map (fun x => (x - np_mean data) ^ 2)))

namespace MC

/-- The `MonteCarloConfig` dataclass of `monte_carlo_simulation.py`
(lines 10-19), with the same field defaults. -/
structure MonteCarloConfig where
  num_samples : ℤ := 10000
  num_processes : ℤ := 4
  seed : Option ℤ := none
  batch_size : Option ℤ := none
  use_numpy : Bool := true
  store_points : Bool := false
  convergence_threshold : ℚ := 1 / 1000000
  max_iterations : ℤ := 100
deriving DecidableEq, Repr

/-- The constructor generated by `@dataclass` for `MonteCarloConfig`: it
stores the given field values and performs no validation whatsoever, so it
never raises.  The `Except` result type records the absence of any raised
exception. -/
def mkMonteCarloConfig (c : MonteCarloConfig) : Except PyErr MonteCarloConfig :=
  .ok c

/-- State of a successfully constructed `PiEstimation` instance
(`monte_carlo_simulation.py` lines 30-36). -/
structure PiEstimationState where
  config : MonteCarloConfig
  points : List (ℚ × ℚ × Bool)
deriving DecidableEq, Repr

/-- `PiEstimation.__init__` (`monte_carlo_simulation.py` lines 31-36).
When `config.seed` is not `None` the body executes `np.random.seed(seed)`
and then `random.seed(seed)`; but `monte_carlo_simulation.py` never imports
the `random` module, so the second call raises
`NameError: name 'random' is not defined` and construction fails.  With no
seed the body only assigns fields and succeeds. -/
def PiEstimation_init (cfg : MonteCarloConfig) : Except PyErr PiEstimationState :=
  match cfg.seed with
  | some _ => .error (.nameError "name random is not defined")
  | none => .ok { config := cfg, points := [] }

/-- The first `k` scalar estimates returned by successive `run_trial()`
invocations, the trial being abstracted as a stream of estimates. -/
def trialOutputs (trial : ℕ → ℚ) (k : ℕ) : List ℚ := (List.range k).map trial

/-- The running mean after `k` sequential iterations: `np.mean` of the first
`k` collected estimates. -/
def runningMean (trial : ℕ → ℚ) (k : ℕ) : ℚ := np_mean (trialOutputs trial k)

/-- IEEE comparison `d < t` for a finite float `d` and a threshold that may
be `float('inf')` (encoded `none`): every finite value is below infinity. -/
def ltThresh (d : ℚ) (t : Option ℚ) : Bool :=
  match t with
  | none => true
  | some tv => decide (d < tv)

/-- The convergence test `abs(estimate - prev_estimate) <
self.config.convergence_threshold` of line 109.  `prev = none` encodes
`prev_estimate` still holding its initial value `float('inf')`; the absolute
difference is then infinite, and `inf < t` is false for every threshold,
including an infinite one. -/
def convCheck (est : ℚ) (prev : Option ℚ) (t : Option ℚ) : Bool :=
  match prev with
  | none => false
  | some p => ltThresh |est - p| t

/-- The `for i in range(self.config.max_iterations)` loop of
`run_sequential` (`monte_carlo_simulation.py` lines 102-112).  The first
argument after the threshold counts the remaining iterations, `i` the number
already performed, `res` and `hist` accumulate `self.results` and
`self.convergence_history`, and `prev` is the `prev_estimate` variable. -/
def seqLoop (trial : ℕ → ℚ) (t : Option ℚ) :
    ℕ → ℕ → List ℚ → List ℚ → Option ℚ → List ℚ × List ℚ
  | 0, _, res, hist, _ => (res, hist)
  | n + 1, i, res, hist, prev =>
      if convCheck (np_mean (res ++ [trial i])) prev t then
        (res ++ [trial i], hist ++ [np_mean (res ++ [trial i])])
      else
        seqLoop trial t n (i + 1) (res ++ [trial i])
          (hist ++ [np_mean (res ++ [trial i])]) (some (np_mean (res ++ [trial i])))

/-- `MonteCarloAnalyzer.run_sequential` (lines 97-115): starts with empty
result and history buffers and `prev_estimate = float('inf')`, then runs the
iterative loop; returns the final `(self.results, self.convergence_history)`
pair fed to `_analyze_results`. -/
def run_sequential (trial : ℕ → ℚ) (t : Option ℚ) (maxIterations : ℕ) :
    List ℚ × List ℚ :=
  seqLoop trial t maxIterations 0 [] [] none

/-- The `num_iterations` field of the report: `len(self.results)` after the
sequential run. -/
def iterationCount (trial : ℕ → ℚ) (t : Option ℚ) (m : ℕ) : ℕ :=
  (run_sequential trial t m).1.length

/-- Whether the convergence test fires at iteration `k` (meaningful for
`k ≥ 2`): the absolute difference of the running means after iterations `k`
and `k - 1` is below the threshold. -/
def stopAt (trial : ℕ → ℚ) (t : Option ℚ) (k : ℕ) : Bool :=
  ltThresh |runningMean trial k - runningMean trial (k - 1)| t

/-- The value of `prev_estimate` at the start of iteration `i + 1`: the
initial `float('inf')` when no iteration has run, otherwise the running mean
after the `i` completed iterations. -/
def prevOf (trial : ℕ → ℚ) (i : ℕ) : Option ℚ :=
  if i = 0 then none else some (runningMean trial i)

/-- `MonteCarloAnalyzer.run_parallel` (lines 84-95): computes the unused
`batch_size` (whose fallback floor division can raise), opens a process pool
of `num_processes` workers (`ProcessPoolExecutor` raises `ValueError` when
`max_workers` is not positive), submits exactly `num_processes` independent
`run_trial` invocations, and stores the collected scalar estimates as
`self.results`. -/
def run_parallel (trial : ℕ → ℚ) (cfg : MonteCarloConfig) :
    Except PyErr (List ℚ) :=
  match pyOrDiv cfg.batch_size cfg.num_samples cfg.num_processes with
  | .error e => .error e
  | .ok _ =>
      if cfg.num_processes ≤ 0 then
        .error (.valueError "max_workers must be greater than 0")
      else
        .ok ((List.range cfg.num_processes.toNat).map trial)

/-- The `absolute_error` field of `_analyze_results` (line 124):
`abs(final_estimate - exact_value)` with `final_estimate =
np.mean(self.results)`, in IEEE float arithmetic. -/
noncomputable def absolute_error (results : List ℝ) (exact : ℝ) : RFloat :=
  RFloat.fabs (RFloat.sub (.fin (np_mean results)) (.fin exact))

/-- The `relative_error` field of `_analyze_results` (line 125):
`abs((final_estimate - exact_value) / exact_value)`, in IEEE float
arithmetic (numpy division by zero warns and yields an infinity or NaN, it
does not raise). -/
noncomputable def relative_error (results : List ℝ) (exact : ℝ) : RFloat :=
  RFloat.fabs (RFloat.div (RFloat.sub (.fin (np_mean results)) (.fin exact))
    (.fin exact))

end MC

namespace RS

/-- The `SimulationConfig` dataclass of `random_simulation.py`
(lines 10-18), with the same field defaults. -/
structure SimulationConfig where
  min_value : ℤ := 1
  max_value : ℤ := 100
  trials : ℤ := 1000
  seed : Option ℤ := none
  parallel : Bool := false
  num_processes : ℤ := 4
  batch_size : Option ℤ := none
deriving DecidableEq, Repr

/-- The constructor generated by `@dataclass` for `SimulationConfig`: it
stores the given field values and performs no validation whatsoever, so it
never raises. -/
def mkSimulationConfig (c : SimulationConfig) : Except PyErr SimulationConfig :=
  .ok c

/-- `RandomSimulation._generate_batch` (lines 51-54): a list comprehension
of `size` successive `random.randint(min_value, max_value)` draws, the
random stream being abstracted as a function from draw index to drawn
integer. -/
def generate_batch (rand : ℕ → ℤ) (size : ℕ) : List ℤ :=
  (List.range size).map rand

/-- `RandomSimulation._parallel_simulation` (lines 56-64): computes
`batch_size = config.batch_size or (trials // num_processes)` (either floor
division may raise `ZeroDivisionError`), builds `trials // batch_size`
batches of `batch_size` draws each, checks the pool size
(`ProcessPoolExecutor` raises `ValueError` for a non-positive
`max_workers`), maps `_generate_batch` over the batches — worker `bi`
drawing from its own stream `g bi` — and flattens the collected lists.
Any indivisible remainder of `trials` is silently dropped. -/
def parallel_simulation (g : ℕ → ℕ → ℤ) (cfg : SimulationConfig) :
    Except PyErr (List ℤ) :=
  match pyOrDiv cfg.batch_size cfg.trials cfg.num_processes with
  | .error e => .error e
  | .ok batch_size =>
      match pyFloorDiv cfg.trials batch_size with
      | .error e => .error e
      | .ok nBatches =>
          if cfg.num_processes ≤ 0 then
            .error (.valueError "max_workers must be greater than 0")
          else
            .ok (((List.range nBatches.toNat).map
              (fun bi => generate_batch (g bi) batch_size.toNat)).flatten)

/-- `RandomSimulation.run` (lines 66-73), restricted to the sampling phase
that produces the raw data list `results`: the parallel path is taken only
when `config.parallel` is truthy and `trials >= 10000`; otherwise a single
sequential batch of `trials` draws is generated (Python `range` of a
negative count is empty, hence `toNat`).  The statistics phase applied to
the raw data is modelled by `np_mean`, `np_std`, `np_min`, `np_max`,
`calculate_skewness` and `calculate_kurtosis`. -/
def run (g : ℕ → ℕ → ℤ) (cfg : SimulationConfig) : Except PyErr (List ℤ) :=
  if cfg.parallel = true ∧ 10000 ≤ cfg.trials then parallel_simulation g cfg
  else .ok (generate_batch (g 0) cfg.trials.toNat)

/-- `RandomSimulation._calculate_skewness` (lines 91-94):
`np.mean(((data - np.mean(data)) / np.std(data)) ** 3)` with numpy
elementwise semantics: each standardized value is an IEEE float, NaN when
both the deviation and the standard deviation are zero. -/
noncomputable def calculate_skewness (data : List ℝ) : RFloat :=
  RFloat.mean ((data.map (fun x =>
    RFloat.div (.fin (x - np_mean data)) (.fin (np_std data)))).map
    (fun z => RFloat.npow z 3))

/-- `RandomSimulation._calculate_kurtosis` (lines 96-99):
`np.mean(((data - np.mean(data)) / np.std(data)) ** 4) - 3`, elementwise in
IEEE float semantics. -/
noncomputable def calculate_kurtosis (data : List ℝ) : RFloat :=
  RFloat.sub (RFloat.mean ((data.map (fun x =>
    RFloat.div (.fin (x - np_mean data)) (.fin (np_std data)))).map
    (fun z => RFloat.npow z 4))) (.fin 3)

end RS

/-! ## Helper lemmas -/

namespace MC

lemma trialOutputs_succ (trial : ℕ → ℚ) (i : ℕ) :
    trialOutputs trial (i + 1) = trialOutputs trial i ++ [trial i] := by
  simp [trialOutputs, List.range_succ]

lemma trialOutputs_length (trial : ℕ → ℚ) (i : ℕ) :
    (trialOutputs trial i).length = i := by
  simp [trialOutputs]

lemma convCheck_step (trial : ℕ → ℚ) (t : Option ℚ) (i : ℕ) :
    convCheck (np_mean (trialOutputs trial i ++ [trial i])) (prevOf trial i) t =
      if i = 0 then false else stopAt trial t (i + 1) := by
  rcases Nat.eq_zero_or_pos i with h | h
  · subst h; simp [prevOf, convCheck]
  · have hne : i ≠ 0 := Nat.pos_iff_ne_zero.mp h
    simp only [prevOf, if_neg hne, convCheck, stopAt, runningMean,
      Nat.add_sub_cancel, trialOutputs_succ]

lemma seqLoop_length_nostop (trial : ℕ → ℚ) (t : Option ℚ) :
    ∀ (n i : ℕ) (hist : List ℚ),
      (∀ j, i < j → j ≤ i + n → 2 ≤ j → stopAt trial t j = false) →
      ((seqLoop trial t n i (trialOutputs trial i) hist (prevOf trial i)).1).length
        = i + n := by
  intro n
  induction n with
  | zero =>
      intro i hist _
      simp [seqLoop, trialOutputs_length]
  | succ n ih =>
      intro i hist hns
      rw [seqLoop, convCheck_step]
      have hcond : (if i = 0 then false else stopAt trial t (i + 1)) = false := by
        rcases Nat.eq_zero_or_pos i with h0 | hpos
        · simp [h0]
        · rw [if_neg (by omega : ¬ i = 0)]
          exact hns (i + 1) (by omega) (by omega) (by omega)
      rw [hcond, if_neg Bool.false_ne_true]
      have h1 : trialOutputs trial i ++ [trial i] = trialOutputs trial (i + 1) :=
        (trialOutputs_succ trial i).symm
      have h2 : some (np_mean (trialOutputs trial (i + 1))) = prevOf trial (i + 1) := by
        simp [prevOf, runningMean]
      rw [h1, h2]
      have h3 := ih (i + 1) (hist ++ [np_mean (trialOutputs trial (i + 1))]) (by
        intro j hj1 hj2 hj3
        exact hns j (by omega) (by omega) hj3)
      omega

lemma seqLoop_length_stop (trial : ℕ → ℚ) (t : Option ℚ) :
    ∀ (n i : ℕ) (hist : List ℚ) (k : ℕ),
      i < k → k ≤ i + n → 2 ≤ k → stopAt trial t k = true →
      (∀ j, i < j → j < k → 2 ≤ j → stopAt trial t j = false) →
      ((seqLoop trial t n i (trialOutputs trial i) hist (prevOf trial i)).1).length
        = k := by
  intro n
  induction n with
  | zero =>
      intro i hist k hik hki _ _ _
      omega
  | succ n ih =>
      intro i hist k hik hki hk2 hkstop hns
      rw [seqLoop, convCheck_step]
      rcases Nat.lt_or_ge (i + 1) k with hlt | hge
      · -- the loop does not stop at iteration i + 1; recurse
        have hcond : (if i = 0 then false else stopAt trial t (i + 1)) = false := by
          rcases Nat.eq_zero_or_pos i with h0 | hpos
          · simp [h0]
          · rw [if_neg (by omega : ¬ i = 0)]
            exact hns (i + 1) (by omega) hlt (by omega)
        rw [hcond, if_neg Bool.false_ne_true]
        have h1 : trialOutputs trial i ++ [trial i] = trialOutputs trial (i + 1) :=
          (trialOutputs_succ trial i).symm
        have h2 : some (np_mean (trialOutputs trial (i + 1)))
            = prevOf trial (i + 1) := by
          simp [prevOf, runningMean]
        rw [h1, h2]
        exact ih (i + 1) (hist ++ [np_mean (trialOutputs trial (i + 1))]) k hlt
          (by omega) hk2 hkstop
          (fun j hj1 hj2 hj3 => hns j (by omega) hj2 hj3)
      · -- k = i + 1: the loop stops here
        have hk : k = i + 1 := by omega
        have hne : i ≠ 0 := by omega
        have hstop' : stopAt trial t (i + 1) = true := by rw [← hk]; exact hkstop
        rw [if_neg hne, if_pos hstop']
        simp [trialOutputs_length, hk]

end MC

lemma length_flatten_map_range {α : Type} (f : ℕ → List α) (c : ℕ) (n : ℕ)
    (h : ∀ i, (f i).length = c) :
    (((List.range n).map f).flatten).length = n * c := by
  induction n with
  | zero => simp
  | succ n ih =>
      rw [List.range_succ, List.map_append, List.flatten_append]
      simp [ih, h, Nat.succ_mul]

lemma foldl_min_le_self {α : Type} [LinearOrder α] (xs : List α) :
    ∀ a : α, xs.foldl min a ≤ a := by
  induction xs with
  | nil => intro a; exact le_refl a
  | cons y ys ih =>
      intro a
      calc (y :: ys).foldl min a = ys.foldl min (min a y) := rfl
        _ ≤ min a y := ih (min a y)
        _ ≤ a := min_le_left a y

lemma foldl_min_le_mem {α : Type} [LinearOrder α] (xs : List α) :
    ∀ a x : α, x ∈ xs → xs.foldl min a ≤ x := by
  induction xs with
  | nil => intro a x hx; cases hx
  | cons y ys ih =>
      intro a x hx
      rcases List.mem_cons.mp hx with hxy | hx
      · subst hxy
        calc (x :: ys).foldl min a = ys.foldl min (min a x) := rfl
          _ ≤ min a x := foldl_min_le_self ys (min a x)
          _ ≤ x := min_le_right a x
      · exact ih (min a y) x hx

lemma self_le_foldl_max {α : Type} [LinearOrder α] (xs : List α) :
    ∀ a : α, a ≤ xs.foldl max a := by
  induction xs with
  | nil => intro a; exact le_refl a
  | cons y ys ih =>
      intro a
      calc a ≤ max a y := le_max_left a y
        _ ≤ ys.foldl max (max a y) := ih (max a y)
        _ = (y :: ys).foldl max a := rfl

lemma mem_le_foldl_max {α : Type} [LinearOrder α] (xs : List α) :
    ∀ a x : α, x ∈ xs → x ≤ xs.foldl max a := by
  induction xs with
  | nil => intro a x hx; cases hx
  | cons y ys ih =>
      intro a x hx
      rcases List.mem_cons.mp hx with hxy | hx
      · subst hxy
        calc x ≤ max a x := le_max_right a x
          _ ≤ ys.foldl max (max a x) := self_le_foldl_max ys (max a x)
          _ = (x :: ys).foldl max a := rfl
      · exact ih (max a y) x hx

lemma np_min_le_mem {α : Type} [LinearOrderedField α] (l : List α) (x : α)
    (hx : x ∈ l) : np_min l ≤ x := by
  cases l with
  | nil => cases hx
  | cons y ys =>
      rcases List.mem_cons.mp hx with hxy | hx
      · subst hxy; exact foldl_min_le_self ys x
      · exact foldl_min_le_mem ys y x hx

lemma mem_le_np_max {α : Type} [LinearOrderedField α] (l : List α) (x : α)
    (hx : x ∈ l) : x ≤ np_max l := by
  cases l with
  | nil => cases hx
  | cons y ys =>
      rcases List.mem_cons.mp hx with hxy | hx
      · subst hxy; exact self_le_foldl_max ys x
      · exact mem_le_foldl_max ys y x hx

lemma list_sum_bounds {α : Type} [LinearOrderedField α] (l : List α) (lo hi : α)
    (hlo : ∀ x ∈ l, lo ≤ x) (hhi : ∀ x ∈ l, x ≤ hi) :
    (l.length : α) * lo ≤ l.sum ∧ l.sum ≤ (l.length : α) * hi := by
  induction l with
  | nil => simp
  | cons y ys ih =>
      have h := ih (fun x hx => hlo x (List.mem_cons_of_mem y hx))
        (fun x hx => hhi x (List.mem_cons_of_mem y hx))
      have hy1 := hlo y (List.mem_cons_self y ys)
      have hy2 := hhi y (List.mem_cons_self y ys)
      constructor
      · simp only [List.sum_cons, List.length_cons]
        push_cast
        rw [add_mul, one_mul]
        linarith [h.1]
      · simp only [List.sum_cons, List.length_cons]
        push_cast
        rw [add_mul, one_mul]
        linarith [h.2]

namespace RFloat

lemma add_nan_left (x : RFloat) : add nan x = nan := by cases x <;> rfl

lemma div_nan_left (x : RFloat) : div nan x = nan := by cases x <;> rfl

lemma sub_nan_left (x : RFloat) : sub nan x = nan := by cases x <;> rfl

lemma sub_fin_fin (a b : ℝ) : sub (fin a) (fin b) = fin (a - b) := by
  simp [sub, add, neg, sub_eq_add_neg]

lemma foldl_add_nan (l : List RFloat) : l.foldl add nan = nan := by
  induction l with
  | nil => rfl
  | cons x xs ih => rw [List.foldl_cons, add_nan_left]; exact ih

lemma sum_replicate_nan (N : ℕ) (hN : 1 ≤ N) :
    sum (List.replicate N nan) = nan := by
  cases N with
  | zero => omega
  | succ n =>
      rw [List.replicate_succ, sum, List.foldl_cons]
      exact foldl_add_nan _

lemma mean_replicate_nan (N : ℕ) (hN : 1 ≤ N) :
    mean (List.replicate N nan) = nan := by
  rw [mean, sum_replicate_nan N hN, div_nan_left]

lemma fabs_div_fin (a b : ℝ) :
    fabs (div (fin a) (fin b)) = div (fin |a|) (fin |b|) := by
  by_cases hb : b = 0
  · subst hb
    by_cases ha : a = 0
    · subst ha; simp [div, fabs]
    · have habs0 : ¬ |a| = 0 := abs_ne_zero.mpr ha
      have habspos : 0 < |a| := abs_pos.mpr ha
      rcases lt_or_gt_of_ne ha with hlt | hgt
      · have hna : ¬ 0 < a := not_lt.mpr hlt.le
        simp [div, fabs, ha, hna, habs0, habspos, abs_zero]
      · simp [div, fabs, ha, hgt, habs0, habspos, abs_zero]
  · have hab : ¬ |b| = 0 := abs_ne_zero.mpr hb
    simp [div, fabs, hb, hab, abs_div]

end RFloat

lemma np_mean_replicate {α : Type} [LinearOrderedField α] (N : ℕ) (hN : N ≠ 0)
    (c : α) : np_mean (List.replicate N c) = c := by
  rw [np_mean, List.sum_replicate, List.length_replicate, nsmul_eq_mul]
  exact mul_div_cancel_left₀ c (by exact_mod_cast hN)

lemma np_std_replicate (N : ℕ) (hN : N ≠ 0) (c : ℝ) :
    np_std (List.replicate N c) = 0 := by
  simp [np_std, List.map_replicate, np_mean_replicate N hN, sub_self]

/-! ## Claim theorems -/

/-- C1: the spec requires that constructing a Trial with `seed` set succeeds
and seeds the random source once at construction, making seeded sequential
runs reproducible.  The code cannot deliver this: `monte_carlo_simulation.py`
calls `random.seed(config.seed)` in `PiEstimation.__init__` without ever
importing `random`, so constructing `PiEstimation` with any seed set (for
example the repository's own example config `MonteCarloConfig(num_samples=
10000, seed=42)`) raises `NameError` before any trial can run. -/
theorem MC.piEstimation_seeded_init_raises :
    MC.PiEstimation_init { num_samples := 10000, seed := some 42 } =
      .error (.nameError "name random is not defined") := rfl

/-- C4 counterexample: the claim says constructing an invalid configuration
(non-positive sample count, process count, convergence threshold or max
iterations) raises a `ConfigurationError` at construction time.  The
dataclass constructors validate nothing: constructing a maximally invalid
`MonteCarloConfig` and a maximally invalid `SimulationConfig` both succeed. -/
theorem config_invalid_construction_succeeds :
    MC.mkMonteCarloConfig
        { num_samples := 0, num_processes := 0, convergence_threshold := 0,
          max_iterations := 0 } =
      .ok { num_samples := 0, num_processes := 0, convergence_threshold := 0,
            max_iterations := 0 } ∧
    RS.mkSimulationConfig { trials := 0, num_processes := 0, batch_size := some 0 } =
      .ok { trials := 0, num_processes := 0, batch_size := some 0 } :=
  ⟨rfl, rfl⟩

/-- C4 amended: construction of either configuration dataclass performs no
validation at all and always succeeds, whatever the field values; no
configuration error is ever raised at construction time. -/
theorem config_construction_never_raises (c : MC.MonteCarloConfig)
    (s : RS.SimulationConfig) :
    MC.mkMonteCarloConfig c = .ok c ∧ RS.mkSimulationConfig s = .ok s :=
  ⟨rfl, rfl⟩

namespace MC

/-- C2: for a sequential run with `maxIterations = m ≥ 1`, the loop stops at
the first iteration `k ≥ 2` at which the running means after iterations `k`
and `k - 1` differ (in absolute value) by less than the convergence
threshold, and otherwise runs exactly `m` iterations; the first iteration
never triggers the stop, so `m = 1` always performs exactly one iteration,
and an always-true infinite threshold with `m ≥ 2` terminates exactly at
iteration 2. -/
theorem sequential_stop_characterization (trial : ℕ → ℚ) (t : Option ℚ) (m : ℕ)
    (hm : 1 ≤ m) :
    (m = 1 → iterationCount trial t m = 1) ∧
    (t = none → 2 ≤ m → iterationCount trial t m = 2) ∧
    (∀ k, 2 ≤ k → k ≤ m → stopAt trial t k = true →
      (∀ j, 2 ≤ j → j < k → stopAt trial t j = false) →
      iterationCount trial t m = k) ∧
    ((∀ j, 2 ≤ j → j ≤ m → stopAt trial t j = false) →
      iterationCount trial t m = m) := by
  have hbase : iterationCount trial t m
      = ((seqLoop trial t m 0 (trialOutputs trial 0) [] (prevOf trial 0)).1).length :=
    rfl
  refine ⟨?_, ?_, ?_, ?_⟩
  · intro h1
    subst h1
    rw [hbase]
    have h := seqLoop_length_nostop trial t 1 0 []
      (fun j hj1 hj2 hj3 => absurd hj3 (by omega))
    omega
  · intro htn h2m
    rw [hbase]
    have hstop2 : stopAt trial t 2 = true := by rw [htn]; rfl
    have h := seqLoop_length_stop trial t m 0 [] 2 (by omega) (by omega) (by omega)
      hstop2 (fun j hj1 hj2 hj3 => absurd hj3 (by omega))
    omega
  · intro k hk2 hkm hks hns
    rw [hbase]
    exact seqLoop_length_stop trial t m 0 [] k (by omega) (by omega) hk2 hks
      (fun j hj1 hj2 hj3 => hns j hj3 hj2)
  · intro hns
    rw [hbase]
    have h := seqLoop_length_nostop trial t m 0 []
      (fun j hj1 hj2 hj3 => hns j hj3 (by omega))
    omega

/-- Concrete instantiation of the sequential stop characterization: constant
trial stream `1`, threshold `1`, `maxIterations = 3`. -/
theorem sequential_stop_characterization_witness :
    1 ≤ 3 ∧
    ((3 = 1 → iterationCount (fun _ => (1 : ℚ)) (some 1) 3 = 1) ∧
     ((some (1 : ℚ)) = none → 2 ≤ 3 →
       iterationCount (fun _ => (1 : ℚ)) (some 1) 3 = 2) ∧
     (∀ k, 2 ≤ k → k ≤ 3 → stopAt (fun _ => (1 : ℚ)) (some 1) k = true →
       (∀ j, 2 ≤ j → j < k → stopAt (fun _ => (1 : ℚ)) (some 1) j = false) →
       iterationCount (fun _ => (1 : ℚ)) (some 1) 3 = k) ∧
     ((∀ j, 2 ≤ j → j ≤ 3 → stopAt (fun _ => (1 : ℚ)) (some 1) j = false) →
       iterationCount (fun _ => (1 : ℚ)) (some 1) 3 = 3)) :=
  ⟨by decide,
   sequential_stop_characterization (fun _ => (1 : ℚ)) (some 1) 3 (by decide)⟩

/-- C7: a parallel-strategy run with `processCount ≥ 1` succeeds and leaves
a ResultBuffer with exactly `processCount` entries, one scalar estimate per
submitted worker invocation, regardless of `num_samples`. -/
theorem run_parallel_buffer_size (trial : ℕ → ℚ) (cfg : MonteCarloConfig)
    (hp : 1 ≤ cfg.num_processes) :
    ∃ l, run_parallel trial cfg = .ok l ∧ (l.length : ℤ) = cfg.num_processes := by
  have hpne : cfg.num_processes ≠ 0 := by omega
  have hor : ∃ v, pyOrDiv cfg.batch_size cfg.num_samples cfg.num_processes
      = .ok v := by
    rcases hB : cfg.batch_size with _ | b
    · exact ⟨cfg.num_samples.fdiv cfg.num_processes,
        by simp [pyOrDiv, pyFloorDiv, hpne]⟩
    · by_cases hb : b = 0
      · exact ⟨cfg.num_samples.fdiv cfg.num_processes,
          by simp [pyOrDiv, pyFloorDiv, hb, hpne]⟩
      · exact ⟨b, by simp [pyOrDiv, hb]⟩
  obtain ⟨v, hv⟩ := hor
  refine ⟨(List.range cfg.num_processes.toNat).map trial, ?_, ?_⟩
  · simp only [run_parallel, hv]
    rw [if_neg (by omega : ¬ cfg.num_processes ≤ 0)]
  · simp only [List.length_map, List.length_range]
    omega

/-- Concrete instantiation of the parallel buffer-size theorem: the default
configuration (4 processes) with a constant trial stream. -/
theorem run_parallel_buffer_size_witness :
    1 ≤ ({} : MonteCarloConfig).num_processes ∧
    (∃ l, run_parallel (fun _ => (3 : ℚ)) {} = .ok l ∧
      (l.length : ℤ) = ({} : MonteCarloConfig).num_processes) :=
  ⟨by decide, run_parallel_buffer_size (fun _ => (3 : ℚ)) {} (by decide)⟩

end MC

/-- C8: for every non-empty result buffer, the aggregated mean lies within
the closed interval between the buffer's minimum and maximum. -/
theorem mean_between_min_max {α : Type} [LinearOrderedField α] (l : List α)
    (h : l ≠ []) :
    np_min l ≤ np_mean l ∧ np_mean l ≤ np_max l := by
  have hlen0 : 0 < l.length := List.length_pos.mpr h
  have hlen : (0 : α) < (l.length : α) := by exact_mod_cast hlen0
  have hb := list_sum_bounds l (np_min l) (np_max l)
    (fun x hx => np_min_le_mem l x hx) (fun x hx => mem_le_np_max l x hx)
  constructor
  · rw [np_mean, le_div_iff₀ hlen]
    calc np_min l * (l.length : α) = (l.length : α) * np_min l := mul_comm _ _
      _ ≤ l.sum := hb.1
  · rw [np_mean, div_le_iff₀ hlen]
    calc l.sum ≤ (l.length : α) * np_max l := hb.2
      _ = np_max l * (l.length : α) := mul_comm _ _

/-- Concrete instantiation of the mean bound: the rational buffer
`[1, 2, 4]`. -/
theorem mean_between_min_max_witness :
    ([(1 : ℚ), 2, 4] ≠ []) ∧
    (np_min [(1 : ℚ), 2, 4] ≤ np_mean [(1 : ℚ), 2, 4] ∧
     np_mean [(1 : ℚ), 2, 4] ≤ np_max [(1 : ℚ), 2, 4]) :=
  ⟨by decide, mean_between_min_max [(1 : ℚ), 2, 4] (by decide)⟩

namespace RS

/-- C5: a parallel run with an explicit positive batch size `b` that does
not evenly divide `trials` succeeds and generates exactly
`b * (trials // b)` samples, strictly fewer than `trials`: the number of
batches is truncated by integer division and the remainder samples are
silently dropped. -/
theorem parallel_truncates_samples (g : ℕ → ℕ → ℤ) (cfg : SimulationConfig)
    (b : ℤ) (hb : cfg.batch_size = some b) (hbpos : 0 < b)
    (hnd : ¬ b ∣ cfg.trials) (ht : 0 < cfg.trials) (hp : 0 < cfg.num_processes) :
    ∃ l, parallel_simulation g cfg = .ok l ∧
      (l.length : ℤ) = b * cfg.trials.fdiv b ∧ (l.length : ℤ) < cfg.trials := by
  have hbne : b ≠ 0 := by omega
  set q := cfg.trials.fdiv b with hqdef
  have hq0 : 0 ≤ q := Int.fdiv_nonneg (by omega) (by omega)
  have h1 : pyOrDiv cfg.batch_size cfg.trials cfg.num_processes = .ok b := by
    rw [hb]; simp [pyOrDiv, hbne]
  have h2 : pyFloorDiv cfg.trials b = .ok q := by
    simp [pyFloorDiv, hbne, hqdef]
  have hmain : parallel_simulation g cfg =
      .ok (((List.range q.toNat).map
        (fun bi => generate_batch (g bi) b.toNat)).flatten) := by
    simp only [parallel_simulation, h1, h2]
    rw [if_neg (by omega : ¬ cfg.num_processes ≤ 0)]
  have hlenN : (((List.range q.toNat).map
      (fun bi => generate_batch (g bi) b.toNat)).flatten).length
      = q.toNat * b.toNat :=
    length_flatten_map_range _ _ _ (fun i => by simp [generate_batch])
  have hlenZ : ((((List.range q.toNat).map
      (fun bi => generate_batch (g bi) b.toNat)).flatten).length : ℤ) = b * q := by
    rw [hlenN]
    push_cast [Int.toNat_of_nonneg hq0, Int.toNat_of_nonneg hbpos.le]
    ring
  refine ⟨_, hmain, hlenZ, ?_⟩
  rw [hlenZ]
  have hfe : q = cfg.trials / b := by
    rw [hqdef, Int.fdiv_eq_ediv _ hbpos.le]
  have hmod0 : cfg.trials % b ≠ 0 := fun hc => hnd (Int.dvd_iff_emod_eq_zero.mpr hc)
  have hmodpos : 0 < cfg.trials % b :=
    lt_of_le_of_ne (Int.emod_nonneg _ hbne) (Ne.symm hmod0)
  have hdm := Int.ediv_add_emod cfg.trials b
  rw [hfe]
  linarith [hdm, hmodpos]

/-- Concrete instantiation of the truncation theorem: 10 trials split into
batches of 3 yield 9 samples. -/
theorem parallel_truncates_samples_witness :
    (({ trials := 10, batch_size := some 3 } : SimulationConfig).batch_size
      = some 3) ∧
    (0 : ℤ) < 3 ∧ ¬ (3 : ℤ) ∣ (10 : ℤ) ∧ (0 : ℤ) < 10 ∧ (0 : ℤ) < 4 ∧
    (∃ l, parallel_simulation (fun _ _ => 0)
        { trials := 10, batch_size := some 3 } = .ok l ∧
      (l.length : ℤ) = 3 * (10 : ℤ).fdiv 3 ∧ (l.length : ℤ) < 10) :=
  ⟨rfl, by norm_num, by decide, by norm_num, by norm_num,
   parallel_truncates_samples (fun _ _ => 0) { trials := 10, batch_size := some 3 }
     3 rfl (by norm_num) (by decide) (by norm_num) (by norm_num)⟩

/-- C9: with `parallel = True` but `trials < 10000`, `RandomSimulation.run`
takes the sequential path: it succeeds with a single `_generate_batch` call
producing exactly `trials` values, and its behaviour is identical to a run
with the parallel flag cleared. -/
theorem run_small_trials_sequential_path (g : ℕ → ℕ → ℤ)
    (cfg : SimulationConfig) (hp : cfg.parallel = true)
    (ht : cfg.trials < 10000) :
    run g cfg = .ok (generate_batch (g 0) cfg.trials.toNat) ∧
    (generate_batch (g 0) cfg.trials.toNat).length = cfg.trials.toNat ∧
    run g cfg = run g { cfg with parallel := false } := by
  have hc : ¬ (cfg.parallel = true ∧ 10000 ≤ cfg.trials) := by
    rintro ⟨hh1, hh2⟩; omega
  have hc2 : ¬ (({ cfg with parallel := false } : SimulationConfig).parallel = true
      ∧ 10000 ≤ ({ cfg with parallel := false } : SimulationConfig).trials) := by
    rintro ⟨hh1, _⟩
    simp at hh1
  refine ⟨?_, ?_, ?_⟩
  · rw [run, if_neg hc]
  · simp [generate_batch]
  · rw [run, if_neg hc, run, if_neg hc2]

/-- Concrete instantiation of the sequential-path theorem: 1000 trials with
the parallel flag set. -/
theorem run_small_trials_sequential_path_witness :
    (({ trials := 1000, parallel := true } : SimulationConfig).parallel = true) ∧
    (({ trials := 1000, parallel := true } : SimulationConfig).trials < 10000) ∧
    (run (fun _ _ => 0) { trials := 1000, parallel := true }
      = .ok (generate_batch ((fun _ _ => (0 : ℤ)) 0) (1000 : ℤ).toNat) ∧
    (generate_batch ((fun _ _ => (0 : ℤ)) 0) (1000 : ℤ).toNat).length
      = (1000 : ℤ).toNat ∧
    run (fun _ _ => 0) { trials := 1000, parallel := true }
      = run (fun _ _ => 0) { trials := 1000, parallel := false }) :=
  ⟨rfl, by norm_num,
   run_small_trials_sequential_path (fun _ _ => 0)
     { trials := 1000, parallel := true } rfl (by norm_num)⟩

/-- C10: with `batch_size` unset and more processes than trials, the default
batch size `trials // num_processes` evaluates to `0`, and the batch count
`trials // batch_size` then divides by zero: `_parallel_simulation` raises
`ZeroDivisionError`. -/
theorem parallel_default_batch_zero_division (g : ℕ → ℕ → ℤ)
    (cfg : SimulationConfig) (hb : cfg.batch_size = none)
    (h0 : 0 ≤ cfg.trials) (hlt : cfg.trials < cfg.num_processes) :
    pyOrDiv cfg.batch_size cfg.trials cfg.num_processes = .ok 0 ∧
    parallel_simulation g cfg = .error .zeroDivisionError := by
  have hppos : 0 < cfg.num_processes := by omega
  have hfd : cfg.trials.fdiv cfg.num_processes = 0 := by
    rw [Int.fdiv_eq_ediv _ hppos.le]
    exact Int.ediv_eq_zero_of_lt h0 hlt
  have hpne : cfg.num_processes ≠ 0 := by omega
  have hor : pyOrDiv cfg.batch_size cfg.trials cfg.num_processes = .ok 0 := by
    rw [hb]
    simp [pyOrDiv, pyFloorDiv, hpne, hfd]
  refine ⟨hor, ?_⟩
  simp only [parallel_simulation, hor]
  simp [pyFloorDiv]

/-- Concrete instantiation of the zero-division theorem: 5 trials across 10
processes with no explicit batch size. -/
theorem parallel_default_batch_zero_division_witness :
    (({ trials := 5, num_processes := 10 } : SimulationConfig).batch_size
      = none) ∧
    (0 : ℤ) ≤ 5 ∧ (5 : ℤ) < 10 ∧
    (pyOrDiv none 5 10 = .ok 0 ∧
     parallel_simulation (fun _ _ => 0) { trials := 5, num_processes := 10 }
       = .error .zeroDivisionError) :=
  ⟨rfl, by norm_num, by norm_num,
   parallel_default_batch_zero_division (fun _ _ => 0)
     { trials := 5, num_processes := 10 } rfl (by norm_num) (by norm_num)⟩

end RS

/-- C3 counterexample: the claim says the relative error is NaN whenever the
reference value is 0.  In the code, `abs((estimate - 0) / 0)` on a nonzero
numpy float estimate yields +infinity, not NaN: a buffer `[1]` with reference
value 0 gives relative error `inf`. -/
theorem MC.relative_error_zero_ref_not_nan :
    MC.relative_error [1] 0 = RFloat.inf ∧
    MC.relative_error [1] 0 ≠ RFloat.nan := by
  have h1 : np_mean ([1] : List ℝ) = 1 := by simp [np_mean]
  have hmain : MC.relative_error [1] 0 = RFloat.inf := by
    rw [MC.relative_error, h1, RFloat.sub_fin_fin]
    norm_num
    simp [RFloat.div, RFloat.fabs]
  exact ⟨hmain, by rw [hmain]; exact fun hc => RFloat.noConfusion hc⟩

/-- C3 amended: for every completed run, the absolute error is
`|estimate - referenceValue|` and the relative error is
`absoluteError / |referenceValue|` in IEEE float semantics; with a zero
reference value the relative error is +infinity when the estimate is
nonzero and NaN only when the estimate is also zero.  The computation is a
total function (numpy division by zero warns, it never raises). -/
theorem MC.error_metrics_amended (results : List ℝ) (exact : ℝ)
    (h : results ≠ []) :
    MC.absolute_error results exact = .fin |np_mean results - exact| ∧
    MC.relative_error results exact
      = RFloat.div (MC.absolute_error results exact) (RFloat.fabs (.fin exact)) ∧
    (exact = 0 → np_mean results ≠ 0 → MC.relative_error results exact = .inf) ∧
    (exact = 0 → np_mean results = 0 → MC.relative_error results exact = .nan) := by
  have habs : MC.absolute_error results exact = .fin |np_mean results - exact| := by
    rw [MC.absolute_error, RFloat.sub_fin_fin]
    rfl
  have hrel : MC.relative_error results exact
      = RFloat.div (.fin |np_mean results - exact|) (.fin |exact|) := by
    rw [MC.relative_error, RFloat.sub_fin_fin, RFloat.fabs_div_fin]
  refine ⟨habs, ?_, ?_, ?_⟩
  · rw [hrel, habs]
    rfl
  · intro he hm
    rw [hrel, he]
    simp [RFloat.div, abs_zero, sub_zero, hm]
  · intro he hm
    rw [hrel, he, hm]
    simp [RFloat.div, abs_zero]

/-- Concrete instantiation of the amended error-metric theorem: buffer `[3]`
with reference value 2. -/
theorem MC.error_metrics_amended_witness :
    (([3] : List ℝ) ≠ []) ∧
    (MC.absolute_error [3] 2 = .fin |np_mean ([3] : List ℝ) - 2| ∧
     MC.relative_error [3] 2
       = RFloat.div (MC.absolute_error [3] 2) (RFloat.fabs (.fin 2)) ∧
     ((2 : ℝ) = 0 → np_mean ([3] : List ℝ) ≠ 0 → MC.relative_error [3] 2 = .inf) ∧
     ((2 : ℝ) = 0 → np_mean ([3] : List ℝ) = 0 → MC.relative_error [3] 2 = .nan)) :=
  ⟨by simp, MC.error_metrics_amended [3] 2 (by simp)⟩

/-- C6: for a buffer of one repeated constant value `c` with `N ≥ 2`
entries, the aggregated statistics give `mean = c` and `stdDev = 0`, and
the skewness and kurtosis computations — elementwise `0/0` in IEEE
semantics — both return NaN; every one of these is a total computation that
cannot raise. -/
theorem RS.constant_buffer_degenerate_stats (c : ℝ) (N : ℕ) (hN : 2 ≤ N) :
    np_mean (List.replicate N c) = c ∧
    np_std (List.replicate N c) = 0 ∧
    RS.calculate_skewness (List.replicate N c) = RFloat.nan ∧
    RS.calculate_kurtosis (List.replicate N c) = RFloat.nan := by
  have hN0 : N ≠ 0 := by omega
  have hmean := np_mean_replicate N hN0 c
  have hstd := np_std_replicate N hN0 c
  have hdivnan : RFloat.div (RFloat.fin 0) (RFloat.fin 0) = RFloat.nan := by
    simp [RFloat.div]
  refine ⟨hmean, hstd, ?_, ?_⟩
  · rw [RS.calculate_skewness]
    simp only [hmean, hstd, List.map_replicate, sub_self, hdivnan]
    have hpow : RFloat.npow RFloat.nan 3 = RFloat.nan := by simp [RFloat.npow]
    rw [hpow]
    exact RFloat.mean_replicate_nan N (by omega)
  · rw [RS.calculate_kurtosis]
    simp only [hmean, hstd, List.map_replicate, sub_self, hdivnan]
    have hpow : RFloat.npow RFloat.nan 4 = RFloat.nan := by simp [RFloat.npow]
    rw [hpow]
    rw [RFloat.mean_replicate_nan N (by omega)]
    exact RFloat.sub_nan_left _

/-- Concrete instantiation of the degenerate-statistics theorem: three
copies of the constant 5. -/
theorem RS.constant_buffer_degenerate_stats_witness :
    2 ≤ 3 ∧
    (np_mean (List.replicate 3 (5 : ℝ)) = 5 ∧
     np_std (List.replicate 3 (5 : ℝ)) = 0 ∧
     RS.calculate_skewness (List.replicate 3 (5 : ℝ)) = RFloat.nan ∧
     RS.calculate_kurtosis (List.replicate 3 (5 : ℝ)) = RFloat.nan) :=
  ⟨by decide, RS.constant_buffer_degenerate_stats 5 3 (by decide)⟩
